import Mathlib

/-!
Verification of the chronological train/validation split generator
`create_train_val_date_splits` from `src/prelude/calendar.py`.

The Python function is a generator:

```
total_window = train_window + val_window
done_flag = False
for start in range(0, len(dates), val_window):
    end = start + total_window
    is_last_window = end + val_window > len(dates)
    if fold_incomplete and is_last_window:
        window = dates[start:]
        done_flag = True
    else:
        window = dates[start:end]
    if len(window) <= train_window:
        break
    train = window[:train_window]
    val = window[train_window:]
    yield train, val
    if done_flag:
        break
```

We embed it twice:
* as a pure recursive function computing the full list of yielded pairs
  (`create_train_val_date_splits_loop` / `create_train_val_date_splits`),
  with a structural `fuel` parameter bounding the number of remaining loop
  iterations (`dates.length` iterations always suffice, see
  `create_loop_fuel_ext`); a zero `val_window` makes Python's `range` raise
  `ValueError`, which is modelled by `create_train_val_date_splits_run`
  returning `Except.error`;
* as an explicit generator state machine (`SplitGen`, `mkSplitGen`,
  `SplitGen.step`, `SplitGen.runGen`) that models generator construction,
  one `next()` call, and full iteration, including the `ValueError` raised
  on the first `next()` when the stride is zero.
-/

/-- Python list slicing `l[a:b]` for nonnegative `a`, `b`: the elements at
indices `a ≤ i < b`, clamped to the length of the list. -/
def pySlice {α : Type} (l : List α) (a b : Nat) : List α :=
  (l.take b).drop a

/-- The loop of `create_train_val_date_splits`, one recursive call per loop
iteration at index `start`; `fuel` bounds the number of remaining iterations
(the wrapper passes `dates.length`, which is always enough because the stride
`val_window` is at least 1 on every path that recurses; see
`create_loop_fuel_ext`).  The guard `val_window = 0` mirrors the fact that
Python's `range(0, len(dates), 0)` never runs the loop body; Python actually
raises `ValueError` there, which the wrapper
`create_train_val_date_splits_run` models as `Except.error`, so the `[]`
returned here for `val_window = 0` is unreachable from the wrapper. -/
def create_train_val_date_splits_loop {α : Type} (dates : List α)
    (train_window val_window : Nat) (fold_incomplete : Bool) :
    Nat → Nat → List (List α × List α)
  | _, 0 => []
  | start, fuel + 1 =>
    if val_window = 0 ∨ dates.length ≤ start then []
    else
      let window : List α :=
        if fold_incomplete = true ∧
            dates.length < start + train_window + val_window + val_window then
          dates.drop start
        else
          pySlice dates start (start + train_window + val_window)
      if window.length ≤ train_window then []
      else
        (window.take train_window, window.drop train_window) ::
          (if fold_incomplete = true ∧
              dates.length < start + train_window + val_window + val_window then
            []
          else
            create_train_val_date_splits_loop dates train_window val_window
              fold_incomplete (start + val_window) fuel)

/-- The list of `(train, val)` pairs yielded by fully iterating the Python
generator `create_train_val_date_splits(dates, train_window, val_window,
fold_incomplete)`, assuming `val_window ≥ 1` (the `val_window = 0` case raises
in Python and is modelled by `create_train_val_date_splits_run`). -/
def create_train_val_date_splits {α : Type} (dates : List α)
    (train_window val_window : Nat) (fold_incomplete : Bool) :
    List (List α × List α) :=
  create_train_val_date_splits_loop dates train_window val_window
    fold_incomplete 0 dates.length

/-- Fully iterating the Python generator, with the `ValueError` raised by
`range(0, len(dates), 0)` on a zero stride modelled as `Except.error`. -/
def create_train_val_date_splits_run {α : Type} (dates : List α)
    (train_window val_window : Nat) (fold_incomplete : Bool) :
    Except String (List (List α × List α)) :=
  if val_window = 0 then Except.error "range() arg 3 must not be zero"
  else Except.ok
    (create_train_val_date_splits dates train_window val_window fold_incomplete)

/-- State of the Python generator object returned by
`create_train_val_date_splits(...)`: the captured arguments, the next loop
index `start`, and the `done_flag`-induced `finished` marker. -/
structure SplitGen (α : Type) where
  dates : List α
  train_window : Nat
  val_window : Nat
  fold_incomplete : Bool
  start : Nat
  finished : Bool
deriving DecidableEq

/-- Calling `create_train_val_date_splits(...)` in Python constructs the
generator object without running any of the body; construction always
succeeds, whatever the arguments. -/
def mkSplitGen {α : Type} (dates : List α) (train_window val_window : Nat)
    (fold_incomplete : Bool) : SplitGen α :=
  ⟨dates, train_window, val_window, fold_incomplete, 0, false⟩

/-- One `next()` call on the generator: `Except.error` models a raised
`ValueError` (zero stride in `range`), `Except.ok none` models
`StopIteration`, and `Except.ok (some (pair, g'))` models a yielded pair
together with the updated generator state. -/
def SplitGen.step {α : Type} (g : SplitGen α) :
    Except String (Option ((List α × List α) × SplitGen α)) :=
  if g.finished then Except.ok none
  else if g.val_window = 0 then Except.error "range() arg 3 must not be zero"
  else if g.dates.length ≤ g.start then Except.ok none
  else
    let window : List α :=
      if g.fold_incomplete = true ∧
          g.dates.length < g.start + g.train_window + g.val_window + g.val_window
      then g.dates.drop g.start
      else pySlice g.dates g.start (g.start + g.train_window + g.val_window)
    if window.length ≤ g.train_window then Except.ok none
    else
      Except.ok (some ((window.take g.train_window, window.drop g.train_window),
        ⟨g.dates, g.train_window, g.val_window, g.fold_incomplete,
          g.start + g.val_window,
          decide (g.fold_incomplete = true ∧
            g.dates.length <
              g.start + g.train_window + g.val_window + g.val_window)⟩))

/-- Iterate the generator at most `fuel` times, collecting the yielded pairs
and returning the final generator state; an error on any step propagates. -/
def SplitGen.runGen {α : Type} :
    Nat → SplitGen α → Except String (List (List α × List α) × SplitGen α)
  | 0, g => Except.ok ([], g)
  | fuel + 1, g =>
    match g.step with
    | Except.error e => Except.error e
    | Except.ok none => Except.ok ([], g)
    | Except.ok (some (p, g')) =>
      match SplitGen.runGen fuel g' with
      | Except.error e => Except.error e
      | Except.ok (l, g'') => Except.ok (p :: l, g'')

/-- Slicing `l[a:a+c]` is `take c` after `drop a`. -/
theorem pySlice_eq_drop_take {α : Type} (l : List α) (a c : Nat) :
    pySlice l a (a + c) = (l.drop a).take c :=
  (List.take_drop a c l).symm

/-- Length of a Python slice. -/
theorem pySlice_length {α : Type} (l : List α) (a b : Nat) :
    (pySlice l a b).length = min b l.length - a := by
  simp [pySlice]

/-- With zero fuel the loop yields nothing. -/
theorem create_loop_zero {α : Type} (dates : List α) (t v : Nat) (f : Bool)
    (start : Nat) :
    create_train_val_date_splits_loop dates t v f start 0 = [] := rfl

/-- If the `for` guard fails (or the stride is zero) the loop yields nothing. -/
theorem create_loop_guard {α : Type} (dates : List α) (t v : Nat) (f : Bool)
    (start fuel : Nat) (hg : v = 0 ∨ dates.length ≤ start) :
    create_train_val_date_splits_loop dates t v f start (fuel + 1) = [] := by
  simp only [create_train_val_date_splits_loop]
  rw [if_pos hg]

/-- Unfolding of one loop iteration in the `fold_incomplete and is_last_window`
branch: the window is `dates[start:]` and `done_flag` stops the iteration
after the yield. -/
theorem create_loop_fold {α : Type} (dates : List α) (t v : Nat) (f : Bool)
    (start fuel : Nat) (hg : ¬(v = 0 ∨ dates.length ≤ start))
    (hl : f = true ∧ dates.length < start + t + v + v) :
    create_train_val_date_splits_loop dates t v f start (fuel + 1) =
      if (dates.drop start).length ≤ t then []
      else [((dates.drop start).take t, (dates.drop start).drop t)] := by
  simp only [create_train_val_date_splits_loop, if_neg hg, if_pos hl]

/-- Unfolding of one loop iteration in the default branch: the window is
`dates[start:start+total_window]` and the loop continues at `start +
val_window`. -/
theorem create_loop_main {α : Type} (dates : List α) (t v : Nat) (f : Bool)
    (start fuel : Nat) (hg : ¬(v = 0 ∨ dates.length ≤ start))
    (hl : ¬(f = true ∧ dates.length < start + t + v + v)) :
    create_train_val_date_splits_loop dates t v f start (fuel + 1) =
      if (pySlice dates start (start + t + v)).length ≤ t then []
      else
        ((pySlice dates start (start + t + v)).take t,
          (pySlice dates start (start + t + v)).drop t) ::
          create_train_val_date_splits_loop dates t v f (start + v) fuel := by
  simp only [create_train_val_date_splits_loop, if_neg hg, if_neg hl]

/-- If at most `train_window` items remain from `start` on, the loop yields
nothing (the `break` on a too-short window, or the `for` guard). -/
theorem create_loop_nil_of_le {α : Type} (dates : List α) (t v : Nat) (f : Bool)
    (start fuel : Nat) (h : dates.length ≤ start + t) :
    create_train_val_date_splits_loop dates t v f start fuel = [] := by
  cases fuel with
  | zero => rfl
  | succ m =>
    by_cases hg : v = 0 ∨ dates.length ≤ start
    · exact create_loop_guard dates t v f start m hg
    · by_cases hl : f = true ∧ dates.length < start + t + v + v
      · rw [create_loop_fold dates t v f start m hg hl, if_pos]
        rw [List.length_drop]
        omega
      · rw [create_loop_main dates t v f start m hg hl, if_pos]
        rw [pySlice_length]
        omega

/-- If strictly more than `train_window` items remain from `start` on and
there is fuel left, the loop yields at least one pair. -/
theorem create_loop_ne_nil {α : Type} (dates : List α) (t v : Nat) (f : Bool)
    (start fuel : Nat) (hv : v ≠ 0) (h : start + t < dates.length)
    (hfuel : 1 ≤ fuel) :
    create_train_val_date_splits_loop dates t v f start fuel ≠ [] := by
  cases fuel with
  | zero => omega
  | succ m =>
    have hg : ¬(v = 0 ∨ dates.length ≤ start) := by omega
    by_cases hl : f = true ∧ dates.length < start + t + v + v
    · rw [create_loop_fold dates t v f start m hg hl, if_neg]
      · exact List.cons_ne_nil _ _
      · rw [List.length_drop]; omega
    · rw [create_loop_main dates t v f start m hg hl, if_neg]
      · exact List.cons_ne_nil _ _
      · rw [pySlice_length]; omega

/-- Any two fuel values that cover all remaining iterations give the same
result: the fuel is an artifact of the embedding, not of the algorithm, and
`dates.length` (as passed by `create_train_val_date_splits`) always covers the
loop, whose index advances by `val_window ≥ 1` while below `dates.length`. -/
theorem create_loop_fuel_ext {α : Type} (dates : List α) (t v : Nat) (f : Bool) :
    ∀ fuel₁ fuel₂ start, dates.length ≤ start + fuel₁ →
      dates.length ≤ start + fuel₂ →
      create_train_val_date_splits_loop dates t v f start fuel₁ =
        create_train_val_date_splits_loop dates t v f start fuel₂ := by
  intro fuel₁
  induction fuel₁ with
  | zero =>
    intro fuel₂ start h₁ h₂
    cases fuel₂ with
    | zero => rfl
    | succ k =>
      rw [create_loop_zero, create_loop_guard dates t v f start k (Or.inr h₁)]
  | succ m ih =>
    intro fuel₂ start h₁ h₂
    cases fuel₂ with
    | zero =>
      rw [create_loop_zero, create_loop_guard dates t v f start m (Or.inr h₂)]
    | succ k =>
      by_cases hg : v = 0 ∨ dates.length ≤ start
      · rw [create_loop_guard dates t v f start m hg,
          create_loop_guard dates t v f start k hg]
      · by_cases hl : f = true ∧ dates.length < start + t + v + v
        · rw [create_loop_fold dates t v f start m hg hl,
            create_loop_fold dates t v f start k hg hl]
        · rw [create_loop_main dates t v f start m hg hl,
            create_loop_main dates t v f start k hg hl]
          have htail := ih k (start + v) (by omega) (by omega)
          rw [htail]

/-- The `k`-th pair yielded from loop index `start` has as its training slice
exactly the `train_window` items of `dates` beginning at offset
`start + k * val_window`, and that offset is below `dates.length`: one pair is
yielded per loop iteration, and the loop index strides by `val_window`. -/
theorem create_loop_get?_fst {α : Type} (dates : List α) (t v : Nat) (f : Bool) :
    ∀ (fuel start k : Nat) (p : List α × List α),
      (create_train_val_date_splits_loop dates t v f start fuel).get? k = some p →
      p.1 = (dates.drop (start + k * v)).take t ∧
        start + k * v < dates.length := by
  intro fuel
  induction fuel with
  | zero =>
    intro start k p h
    rw [create_loop_zero] at h
    simp at h
  | succ m ih =>
    intro start k p h
    by_cases hg : v = 0 ∨ dates.length ≤ start
    · rw [create_loop_guard dates t v f start m hg] at h
      simp at h
    · by_cases hl : f = true ∧ dates.length < start + t + v + v
      · rw [create_loop_fold dates t v f start m hg hl] at h
        by_cases hb : (dates.drop start).length ≤ t
        · rw [if_pos hb] at h; simp at h
        · rw [if_neg hb] at h
          cases k with
          | zero =>
            simp only [List.get?_cons_zero, Option.some.injEq] at h
            constructor
            · rw [← h]
              simp
            · simp only [Nat.zero_mul, Nat.add_zero]
              omega
          | succ j =>
            simp at h
      · rw [create_loop_main dates t v f start m hg hl] at h
        by_cases hb : (pySlice dates start (start + t + v)).length ≤ t
        · rw [if_pos hb] at h; simp at h
        · rw [if_neg hb] at h
          cases k with
          | zero =>
            simp only [List.get?_cons_zero, Option.some.injEq] at h
            constructor
            · rw [← h]
              have h1 : start + t + v = start + (t + v) := by omega
              rw [h1, pySlice_eq_drop_take, List.take_take]
              simp [Nat.min_eq_left (Nat.le_add_right t v)]
            · simp only [Nat.zero_mul, Nat.add_zero]
              omega
          | succ j =>
            rw [List.get?_cons_succ] at h
            obtain ⟨h1, h2⟩ := ih (start + v) j p h
            have harith : start + v + j * v = start + (j + 1) * v := by ring
            constructor
            · rw [h1, harith]
            · rw [← harith]
              exact h2

/-- Every pair yielded from loop index `start` has a training slice of length
exactly `train_window`, a nonempty validation slice, and a validation slice of
at most `val_window` items — except that with `fold_incomplete` the final
absorbed slice may reach `val_window + (val_window - 1)` items. -/
theorem create_loop_mem_lengths {α : Type} (dates : List α) (t v : Nat)
    (f : Bool) :
    ∀ (fuel start : Nat) (p : List α × List α),
      p ∈ create_train_val_date_splits_loop dates t v f start fuel →
      p.1.length = t ∧ 1 ≤ p.2.length ∧
        p.2.length ≤ (if f = true then v + (v - 1) else v) := by
  intro fuel
  induction fuel with
  | zero =>
    intro start p h
    rw [create_loop_zero] at h
    simp at h
  | succ m ih =>
    intro start p h
    by_cases hg : v = 0 ∨ dates.length ≤ start
    · rw [create_loop_guard dates t v f start m hg] at h
      simp at h
    · by_cases hl : f = true ∧ dates.length < start + t + v + v
      · rw [create_loop_fold dates t v f start m hg hl] at h
        by_cases hb : (dates.drop start).length ≤ t
        · rw [if_pos hb] at h; simp at h
        · rw [if_neg hb] at h
          rw [List.length_drop] at hb
          simp only [List.mem_singleton] at h
          subst h
          simp only [List.length_take, List.length_drop, List.length_drop]
          rw [if_pos hl.1]
          omega
      · rw [create_loop_main dates t v f start m hg hl] at h
        by_cases hb : (pySlice dates start (start + t + v)).length ≤ t
        · rw [if_pos hb] at h; simp at h
        · rw [if_neg hb] at h
          rw [List.mem_cons] at h
          cases h with
          | inl h =>
            subst h
            rw [pySlice_length] at hb
            simp only [List.length_take, List.length_drop, pySlice_length]
            constructor
            · omega
            · constructor
              · omega
              · by_cases hf : f = true
                · rw [if_pos hf]; omega
                · rw [if_neg hf]; omega
          | inr h =>
            exact ih (start + v) p h

/-- A yielded pair that is followed by another yielded pair has a validation
slice of length exactly `val_window`: only the final pair can be short
(truncated slice) or long (absorbed remainder). -/
theorem create_loop_get?_snd_full {α : Type} (dates : List α) (t v : Nat)
    (f : Bool) :
    ∀ (fuel start k : Nat) (p q : List α × List α),
      (create_train_val_date_splits_loop dates t v f start fuel).get? k = some p →
      (create_train_val_date_splits_loop dates t v f start fuel).get? (k + 1) =
        some q →
      p.2.length = v := by
  intro fuel
  induction fuel with
  | zero =>
    intro start k p q hp hq
    rw [create_loop_zero] at hp
    simp at hp
  | succ m ih =>
    intro start k p q hp hq
    by_cases hg : v = 0 ∨ dates.length ≤ start
    · rw [create_loop_guard dates t v f start m hg] at hp
      simp at hp
    · by_cases hl : f = true ∧ dates.length < start + t + v + v
      · rw [create_loop_fold dates t v f start m hg hl] at hp hq
        by_cases hb : (dates.drop start).length ≤ t
        · rw [if_pos hb] at hp; simp at hp
        · rw [if_neg hb] at hq
          cases k with
          | zero => simp at hq
          | succ j => simp at hq
      · rw [create_loop_main dates t v f start m hg hl] at hp hq
        by_cases hb : (pySlice dates start (start + t + v)).length ≤ t
        · rw [if_pos hb] at hp; simp at hp
        · rw [if_neg hb] at hp hq
          cases k with
          | zero =>
            simp only [List.get?_cons_zero, Option.some.injEq] at hp
            rw [List.get?_cons_succ] at hq
            have hnext :
                create_train_val_date_splits_loop dates t v f (start + v) m ≠
                  [] := by
              intro hnil
              rw [hnil] at hq
              simp at hq
            have hlong : ¬(dates.length ≤ start + v + t) := by
              intro hshort
              exact hnext (create_loop_nil_of_le dates t v f (start + v) m hshort)
            subst hp
            simp only [List.length_drop, pySlice_length]
            rw [pySlice_length] at hb
            omega
          | succ j =>
            rw [List.get?_cons_succ] at hp hq
            exact ih (start + v) j p q hp hq

/-- With `fold_incomplete = true` and enough fuel for the remaining
iterations, the validation slice of the last yielded pair is a suffix of
`dates`: the final split absorbs every trailing item. -/
theorem create_loop_getLast?_snd_suffix {α : Type} (dates : List α)
    (t v : Nat) :
    ∀ (fuel start : Nat), dates.length ≤ start + fuel →
      ∀ p : List α × List α,
        (create_train_val_date_splits_loop dates t v true start fuel).getLast? =
          some p →
        p.2 <:+ dates := by
  intro fuel
  induction fuel with
  | zero =>
    intro start hsf p h
    rw [create_loop_zero] at h
    simp at h
  | succ m ih =>
    intro start hsf p h
    by_cases hg : v = 0 ∨ dates.length ≤ start
    · rw [create_loop_guard dates t v true start m hg] at h
      simp at h
    · by_cases hl : true = true ∧ dates.length < start + t + v + v
      · rw [create_loop_fold dates t v true start m hg hl] at h
        by_cases hb : (dates.drop start).length ≤ t
        · rw [if_pos hb] at h; simp at h
        · rw [if_neg hb] at h
          simp only [List.getLast?_singleton, Option.some.injEq] at h
          rw [← h]
          simp only [List.drop_drop]
          exact List.drop_suffix (start + t) dates
      · rw [create_loop_main dates t v true start m hg hl] at h
        by_cases hb : (pySlice dates start (start + t + v)).length ≤ t
        · rw [if_pos hb] at h; simp at h
        · rw [if_neg hb] at h
          have hl' : start + t + v + v ≤ dates.length := by
            rcases Nat.lt_or_ge dates.length (start + t + v + v) with hx | hx
            · exact absurd ⟨rfl, hx⟩ hl
            · exact hx
          have htail :
              create_train_val_date_splits_loop dates t v true (start + v) m ≠
                [] := by
            apply create_loop_ne_nil dates t v true (start + v) m
            · omega
            · omega
            · omega
          cases htl :
              create_train_val_date_splits_loop dates t v true (start + v) m with
          | nil => exact absurd htl htail
          | cons b l =>
            rw [htl, List.getLast?_cons_cons] at h
            have hsf' : dates.length ≤ start + v + m := by omega
            have := ih (start + v) hsf' p
            rw [htl] at this
            exact this h

/-- A successful yielding step leaves the captured `dates` and stride
unchanged in the generator state. -/
theorem SplitGen.step_some {α : Type} (g : SplitGen α) (p : List α × List α)
    (g' : SplitGen α) (h : g.step = Except.ok (some (p, g'))) :
    g'.dates = g.dates ∧ g'.val_window = g.val_window := by
  unfold SplitGen.step at h
  by_cases h1 : g.finished
  · rw [if_pos h1] at h; simp at h
  · rw [if_neg h1] at h
    by_cases h2 : g.val_window = 0
    · rw [if_pos h2] at h; simp at h
    · rw [if_neg h2] at h
      by_cases h3 : g.dates.length ≤ g.start
      · rw [if_pos h3] at h; simp at h
      · rw [if_neg h3] at h
        dsimp only at h
        by_cases h4 :
            (if g.fold_incomplete = true ∧
                g.dates.length <
                  g.start + g.train_window + g.val_window + g.val_window
              then g.dates.drop g.start
              else pySlice g.dates g.start
                (g.start + g.train_window + g.val_window)).length ≤
              g.train_window
        · rw [if_pos h4] at h; simp at h
        · rw [if_neg h4] at h
          simp only [Except.ok.injEq, Option.some.injEq, Prod.mk.injEq] at h
          rw [← h.2]
          exact ⟨rfl, rfl⟩

/-- A generator whose stride is nonzero never raises: every step returns
`Except.ok`. -/
theorem SplitGen.step_ok {α : Type} (g : SplitGen α)
    (hv : g.val_window ≠ 0) : ∃ o, g.step = Except.ok o := by
  unfold SplitGen.step
  by_cases h1 : g.finished
  · exact ⟨none, by rw [if_pos h1]⟩
  · rw [if_neg h1, if_neg hv]
    by_cases h3 : g.dates.length ≤ g.start
    · exact ⟨none, by rw [if_pos h3]⟩
    · rw [if_neg h3]
      dsimp only
      by_cases h4 :
          (if g.fold_incomplete = true ∧
              g.dates.length <
                g.start + g.train_window + g.val_window + g.val_window
            then g.dates.drop g.start
            else pySlice g.dates g.start
              (g.start + g.train_window + g.val_window)).length ≤
            g.train_window
      · exact ⟨none, by rw [if_pos h4]⟩
      · exact ⟨_, by rw [if_neg h4]⟩

/-- Iterating a generator whose stride is nonzero never raises: `runGen`
always returns `Except.ok`, for any amount of fuel. -/
theorem SplitGen.runGen_ok {α : Type} :
    ∀ (fuel : Nat) (g : SplitGen α), g.val_window ≠ 0 →
      ∃ r, SplitGen.runGen fuel g = Except.ok r := by
  intro fuel
  induction fuel with
  | zero => exact fun g _ => ⟨([], g), rfl⟩
  | succ m ih =>
    intro g hv
    obtain ⟨o, ho⟩ := SplitGen.step_ok g hv
    cases o with
    | none => exact ⟨([], g), by rw [SplitGen.runGen, ho]⟩
    | some pg =>
      obtain ⟨p, g'⟩ := pg
      have hv' : g'.val_window ≠ 0 := by
        rw [(SplitGen.step_some g p g' ho).2]
        exact hv
      obtain ⟨⟨l, g''⟩, hr⟩ := ih g' hv'
      exact ⟨(p :: l, g''), by simp only [SplitGen.runGen, ho, hr]⟩

/-- Iteration never changes the captured `dates`: whatever final state a
(error-free) run reaches holds the original list. -/
theorem SplitGen.runGen_dates {α : Type} :
    ∀ (fuel : Nat) (g : SplitGen α) (out : List (List α × List α))
      (g' : SplitGen α),
      SplitGen.runGen fuel g = Except.ok (out, g') → g'.dates = g.dates := by
  intro fuel
  induction fuel with
  | zero =>
    intro g out g' h
    rw [SplitGen.runGen] at h
    simp only [Except.ok.injEq, Prod.mk.injEq] at h
    rw [← h.2]
  | succ m ih =>
    intro g out g' h
    cases ho : g.step with
    | error e =>
      simp only [SplitGen.runGen, ho] at h
      exact absurd h (by simp)
    | ok o =>
      cases o with
      | none =>
        simp only [SplitGen.runGen, ho, Except.ok.injEq, Prod.mk.injEq] at h
        rw [← h.2]
      | some pg =>
        obtain ⟨p, g₁⟩ := pg
        cases hr : SplitGen.runGen m g₁ with
        | error e =>
          simp only [SplitGen.runGen, ho, hr] at h
          exact absurd h (by simp)
        | ok r =>
          obtain ⟨l, g₂⟩ := r
          simp only [SplitGen.runGen, ho, hr, Except.ok.injEq,
            Prod.mk.injEq] at h
          rw [← h.2]
          rw [ih g₁ l g₂ hr]
          exact (SplitGen.step_some g p g₁ ho).1

/-- C1 counterexample: the claim says `split([0,1,2,3], 3, 2,
fold_incomplete=False)` yields the empty sequence, but the code yields a
split. -/
theorem c1_counterexample :
    create_train_val_date_splits ([0, 1, 2, 3] : List Nat) 3 2 false ≠ [] := by
  decide

/-- C1 (amended): calling the splitter with `dates = [0,1,2,3]`,
`train_window = 3`, `val_window = 2`, `fold_incomplete = false` yields exactly
one split, `([0,1,2], [3])`: the final window is truncated by slicing, so a
1-element validation slice is emitted rather than the split being dropped. -/
theorem c1_range4_value :
    create_train_val_date_splits ([0, 1, 2, 3] : List Nat) 3 2 false =
      [([0, 1, 2], [3])] := by
  decide

/-- C2 counterexample: with `fold_incomplete = false` the pair
`([6,7,8],[9])` is yielded on `range(10)` with `val_window = 2`, and its
validation slice has length 1, not `val_window` — so a validation slice can
differ from `val_window` even when `fold_incomplete` is false, contradicting
the claim that the final slice under `fold_incomplete = true` is the sole
exception. -/
theorem c2_counterexample :
    (([6, 7, 8], [9]) : List Nat × List Nat) ∈
        create_train_val_date_splits (List.range 10) 3 2 false ∧
      (([6, 7, 8], [9]) : List Nat × List Nat).2.length ≠ 2 := by
  constructor
  · decide
  · decide

/-- C2 (amended): for positive `train_window` and `val_window`, every
validation slice that is followed by another split has exactly `val_window`
elements; every validation slice is nonempty; and a validation slice never
exceeds `val_window` elements when `fold_incomplete` is false, or
`val_window + (val_window - 1)` elements when it is true — so only the final
slice may deviate from `val_window`, being truncated when `fold_incomplete`
is false or absorbing the remainder when it is true. -/
theorem c2_val_lengths (α : Type) (dates : List α) (t v : Nat) (f : Bool)
    (_ht : 1 ≤ t) (_hv : 1 ≤ v) :
    (∀ (k : Nat) (p q : List α × List α),
        (create_train_val_date_splits dates t v f).get? k = some p →
        (create_train_val_date_splits dates t v f).get? (k + 1) = some q →
        p.2.length = v) ∧
      ∀ p ∈ create_train_val_date_splits dates t v f,
        1 ≤ p.2.length ∧
          p.2.length ≤ (if f = true then v + (v - 1) else v) := by
  constructor
  · intro k p q hp hq
    exact create_loop_get?_snd_full dates t v f dates.length 0 k p q hp hq
  · intro p hp
    exact (create_loop_mem_lengths dates t v f dates.length 0 p hp).2

/-- C2 witness: instantiation on `range(10)`, `train_window = 3`,
`val_window = 2`, `fold_incomplete = false`, at the first split (followed by
a second) and at the final split. -/
theorem c2_val_lengths_witness :
    (([0, 1, 2], [3, 4]) : List Nat × List Nat).2.length = 2 ∧
      1 ≤ (([6, 7, 8], [9]) : List Nat × List Nat).2.length ∧
        (([6, 7, 8], [9]) : List Nat × List Nat).2.length ≤
          (if false = true then 2 + (2 - 1) else 2) :=
  ⟨(c2_val_lengths Nat (List.range 10) 3 2 false (by decide) (by decide)).1 0
      ([0, 1, 2], [3, 4]) ([2, 3, 4], [5, 6]) (by decide) (by decide),
    (c2_val_lengths Nat (List.range 10) 3 2 false (by decide) (by decide)).2
      ([6, 7, 8], [9]) (by decide)⟩

/-- C3: when `fold_incomplete` is true and the splitter yields at least one
split, the validation slice of the last yielded split is a suffix of `dates`
(it absorbs all trailing items, extending through the final element); in
particular `split(range(10), 3, 2, fold_incomplete=True)` yields exactly
`[([0,1,2],[3,4]), ([2,3,4],[5,6]), ([4,5,6],[7,8,9])]`. -/
theorem c3_fold_absorbs_trailing :
    (∀ (α : Type) (dates : List α) (t v : Nat), 1 ≤ t → 1 ≤ v →
        ∀ p : List α × List α,
          (create_train_val_date_splits dates t v true).getLast? = some p →
          p.2 <:+ dates) ∧
      create_train_val_date_splits (List.range 10) 3 2 true =
        [([0,1,2], [3,4]), ([2,3,4], [5,6]), ([4,5,6], [7,8,9])] := by
  constructor
  · intro α dates t v _ht _hv p hp
    exact create_loop_getLast?_snd_suffix dates t v dates.length 0 (by omega)
      p hp
  · decide

/-- C3 witness: on `range(10)` with `train_window = 3`, `val_window = 2`,
`fold_incomplete = true`, the last validation slice `[7,8,9]` is a suffix of
the dates. -/
theorem c3_fold_absorbs_trailing_witness :
    ([7, 8, 9] : List Nat) <:+ List.range 10 :=
  c3_fold_absorbs_trailing.1 Nat (List.range 10) 3 2 (by decide) (by decide)
    ([4, 5, 6], [7, 8, 9]) (by decide)

/-- C4: for every dates list and positive windows, fully iterating the
generator raises no exception (every run of the generator machine returns
`Except.ok`, for any number of steps), and a `dates` of length at most
`train_window` — in particular a single-element list — yields the empty
sequence. -/
theorem c4_no_exception_short_empty (α : Type) (dates : List α) (t v : Nat)
    (f : Bool) (_ht : 1 ≤ t) (hv : 1 ≤ v) :
    (∀ fuel : Nat,
        ∃ r, SplitGen.runGen fuel (mkSplitGen dates t v f) = Except.ok r) ∧
      (dates.length ≤ t → create_train_val_date_splits dates t v f = []) := by
  constructor
  · intro fuel
    apply SplitGen.runGen_ok fuel (mkSplitGen dates t v f)
    show v ≠ 0
    omega
  · intro hle
    exact create_loop_nil_of_le dates t v f 0 dates.length (by omega)

/-- C4 witness: `split([0,1,2], 3, 2, fold_incomplete=True)`: a 5-step run
returns `Except.ok` and the yielded sequence is empty (length 3 is at most
`train_window = 3`). -/
theorem c4_no_exception_short_empty_witness :
    (∃ r, SplitGen.runGen 5 (mkSplitGen ([0, 1, 2] : List Nat) 3 2 true) =
        Except.ok r) ∧
      create_train_val_date_splits ([0, 1, 2] : List Nat) 3 2 true = [] :=
  ⟨(c4_no_exception_short_empty Nat [0, 1, 2] 3 2 true (by decide)
      (by decide)).1 5,
    (c4_no_exception_short_empty Nat [0, 1, 2] 3 2 true (by decide)
      (by decide)).2 (by decide)⟩

/-- C5: for every input with positive `train_window` and `val_window`, every
training slice yielded by the splitter has length exactly `train_window`. -/
theorem c5_train_length (α : Type) (dates : List α) (t v : Nat) (f : Bool)
    (_ht : 1 ≤ t) (_hv : 1 ≤ v) :
    ∀ p ∈ create_train_val_date_splits dates t v f, p.1.length = t :=
  fun p hp => (create_loop_mem_lengths dates t v f dates.length 0 p hp).1

/-- C5 witness: the first split of `split(range(10), 3, 2)` has a training
slice of length 3. -/
theorem c5_train_length_witness :
    (([0, 1, 2], [3, 4]) : List Nat × List Nat).1.length = 3 :=
  c5_train_length Nat (List.range 10) 3 2 false (by decide) (by decide)
    ([0, 1, 2], [3, 4]) (by decide)

/-- C6: for every input with positive windows, the `k`-th yielded split
(counting from 0) begins at offset `k * val_window` in `dates` — its training
slice is exactly the `train_window` items of `dates` starting there, and that
offset is below `len(dates)` — so consecutive splits' start offsets differ by
exactly `val_window` and no start offset is skipped. -/
theorem c6_split_offsets (α : Type) (dates : List α) (t v : Nat) (f : Bool)
    (_ht : 1 ≤ t) (_hv : 1 ≤ v) :
    ∀ (k : Nat) (p : List α × List α),
      (create_train_val_date_splits dates t v f).get? k = some p →
      p.1 = (dates.drop (k * v)).take t ∧ k * v < dates.length := by
  intro k p h
  have h' := create_loop_get?_fst dates t v f dates.length 0 k p h
  simpa using h'

/-- C6 witness: the split at index 2 of `split(range(10), 3, 2)` starts at
offset `2 * 2 = 4`. -/
theorem c6_split_offsets_witness :
    (([4, 5, 6], [7, 8]) : List Nat × List Nat).1 =
        ((List.range 10).drop (2 * 2)).take 3 ∧
      2 * 2 < (List.range 10).length :=
  c6_split_offsets Nat (List.range 10) 3 2 false (by decide) (by decide) 2
    ([4, 5, 6], [7, 8]) (by decide)

/-- C7: for every input with positive windows, the splitter yields at most
`ceil(len(dates) / val_window)` splits (with the ceiling written as
`(len + val_window - 1) / val_window` in natural division); termination
itself is witnessed by the embedding: `dates.length` iterations of fuel
always suffice (`create_loop_fuel_ext`). -/
theorem c7_split_count_bound (α : Type) (dates : List α) (t v : Nat)
    (f : Bool) (_ht : 1 ≤ t) (hv : 1 ≤ v) :
    (create_train_val_date_splits dates t v f).length ≤
      (dates.length + v - 1) / v := by
  cases hL : (create_train_val_date_splits dates t v f).length with
  | zero => exact Nat.zero_le _
  | succ m =>
    have hm : m < (create_train_val_date_splits dates t v f).length := by
      omega
    have hget := List.get?_eq_get hm
    have h' := create_loop_get?_fst dates t v f dates.length 0 m _ hget
    have hlt : m * v < dates.length := by
      have := h'.2
      rwa [Nat.zero_add] at this
    have hn : 1 ≤ dates.length := Nat.lt_of_le_of_lt (Nat.zero_le _) hlt
    have h1 : m * v ≤ dates.length - 1 := Nat.le_sub_one_of_lt hlt
    have h2 : m ≤ (dates.length - 1) / v := (Nat.le_div_iff_mul_le hv).mpr h1
    have h4 : dates.length + v - 1 = dates.length - 1 + v := by omega
    rw [h4, Nat.add_div_right _ hv]
    exact Nat.succ_le_succ h2

/-- C7 witness: `split(range(10), 3, 2)` yields at most `ceil(10/2) = 5`
splits. -/
theorem c7_split_count_bound_witness :
    (create_train_val_date_splits (List.range 10) 3 2 false).length ≤
      ((List.range 10).length + 2 - 1) / 2 :=
  c7_split_count_bound Nat (List.range 10) 3 2 false (by decide) (by decide)

/-- C8: the splitter is deterministic — two calls with equal arguments
produce equal outcomes (including the error outcome), the result depending on
nothing but the arguments; in the embedding the splitter is a pure function
of exactly those arguments. -/
theorem c8_deterministic (α : Type) (dates₁ dates₂ : List α)
    (t₁ t₂ v₁ v₂ : Nat) (f₁ f₂ : Bool) (hd : dates₁ = dates₂) (ht : t₁ = t₂)
    (hv : v₁ = v₂) (hf : f₁ = f₂) :
    create_train_val_date_splits_run dates₁ t₁ v₁ f₁ =
      create_train_val_date_splits_run dates₂ t₂ v₂ f₂ := by
  rw [hd, ht, hv, hf]

/-- C8 witness: two calls on `range(10)`, `3`, `2`, `false` agree. -/
theorem c8_deterministic_witness :
    create_train_val_date_splits_run (List.range 10) 3 2 false =
      create_train_val_date_splits_run (List.range 10) 3 2 false :=
  c8_deterministic Nat (List.range 10) (List.range 10) 3 3 2 2 false false
    rfl rfl rfl rfl

/-- C9: the splitter never mutates `dates`: after any (error-free) iteration
of the generator machine, the `dates` held in the final generator state are
element-for-element the original list. -/
theorem c9_dates_not_mutated (α : Type) (dates : List α) (t v : Nat)
    (f : Bool) (fuel : Nat) (out : List (List α × List α)) (g' : SplitGen α)
    (h : SplitGen.runGen fuel (mkSplitGen dates t v f) =
      Except.ok (out, g')) :
    g'.dates = dates :=
  SplitGen.runGen_dates fuel (mkSplitGen dates t v f) out g' h

/-- C9 witness: fully iterating `split(range(10), 3, 2)` (10 steps more than
enough) ends in a state still holding `range(10)`. -/
theorem c9_dates_not_mutated_witness :
    (⟨List.range 10, 3, 2, false, 8, false⟩ : SplitGen Nat).dates =
      List.range 10 :=
  c9_dates_not_mutated Nat (List.range 10) 3 2 false 10
    [([0,1,2], [3,4]), ([2,3,4], [5,6]), ([4,5,6], [7,8]), ([6,7,8], [9])]
    ⟨List.range 10, 3, 2, false, 8, false⟩ rfl

/-- C10: the splitter validates nothing at call time — constructing the
generator succeeds for any arguments, capturing them unchanged — and with
`val_window = 0` and non-empty `dates`, the first request for an element
raises the `range`-with-zero-step `ValueError` rather than yielding an empty
sequence. -/
theorem c10_no_call_time_check :
    (∀ (α : Type) (dates : List α) (t v : Nat) (f : Bool),
        mkSplitGen dates t v f = ⟨dates, t, v, f, 0, false⟩) ∧
      ∀ (α : Type) (dates : List α) (t : Nat) (f : Bool), dates ≠ [] →
        (mkSplitGen dates t 0 f).step =
          Except.error "range() arg 3 must not be zero" := by
  constructor
  · intro α dates t v f
    rfl
  · intro α dates t f _hne
    simp [SplitGen.step, mkSplitGen]

/-- C10 witness: instantiation at `dates = [0]`, `train_window = 1`,
`val_window = 0`. -/
theorem c10_no_call_time_check_witness :
    mkSplitGen ([0] : List Nat) 1 0 false = ⟨[0], 1, 0, false, 0, false⟩ ∧
      (mkSplitGen ([0] : List Nat) 1 0 false).step =
        Except.error "range() arg 3 must not be zero" :=
  ⟨c10_no_call_time_check.1 Nat [0] 1 0 false,
    c10_no_call_time_check.2 Nat [0] 1 false (by decide)⟩

example :
    create_train_val_date_splits (List.range 10) 3 2 true =
      [([0,1,2],[3,4]), ([2,3,4],[5,6]), ([4,5,6],[7,8,9])] := by
  decide

example :
    create_train_val_date_splits (List.range 5) 3 2 false =
      [([0,1,2],[3,4])] := by
  decide

example :
    create_train_val_date_splits (List.range 4) 3 2 false =
      [([0,1,2],[3])] := by
  decide

example : create_train_val_date_splits (List.range 3) 3 2 true = [] := by
  decide

example :
    SplitGen.runGen 10 (mkSplitGen (List.range 10) 3 2 false) =
      Except.ok ([([0,1,2],[3,4]), ([2,3,4],[5,6]), ([4,5,6],[7,8]),
        ([6,7,8],[9])], ⟨List.range 10, 3, 2, false, 8, false⟩) := rfl
